import Mathlib

/-!
Shallow embedding of `src/connectordb/streamdb/datastream/sql.go` (the
`SqlStore` component of the datastream package) together with the minimal
collaborator contracts (`Datapoint`, `DatapointArray`, the versioned codec,
`Batch`, `DataRange`) that the file uses but that live outside the given
source; those collaborator definitions are modelled from the specification
and are marked as such in their doc comments.

Modelling conventions:
- the SQL table `datastream` is a list of rows (`DB`); the prepared
  statements of `OpenPostgresStore` become pure functions on that list
  (filter for `WHERE`, a stable sort for `ORDER BY`, an explicitly
  coalesced maximum for `COALESCE(MAX(EndIndex),0)`);
- `int64` / `BIGINT` values are modelled as `Int` (overflow is immaterial
  to the properties considered); `float64` timestamps are modelled as `Int`
  as well — only their linear order is ever used by the code;
- fallible Go calls become `Except Err`; a Go panic (index out of range)
  is the distinguished `Err.indexOutOfRange`; the engine's uniqueness
  constraint on (StreamId, Substream, EndIndex) is checked by the modelled
  insert statement and surfaces as `Err.uniqueViolation`;
- backing-store I/O never fails in the model (claims about I/O failures are
  conditioned on their absence).
-/

namespace Datastream

/-- Modelled from the spec: a datapoint is a timestamp plus an opaque value
(§3 DatapointArray: "sequence of datapoints (timestamp + value)"); the
`float64` timestamp is modelled as an `Int`, of which only the linear order
is used. -/
structure Datapoint where
  Timestamp : Int
  Data : Int
deriving DecidableEq, Repr

/-- Modelled from the spec: an ordered sequence of datapoints (§3). -/
abbrev DatapointArray := List Datapoint

/-- Error values surfaced by the store; `dbCorrupted` is
`ErrorDatabaseCorrupted` and `wtf` is `ErrWTF` from the source, the rest
model collaborator/engine failures per the spec's error taxonomy (§7). -/
inductive Err where
  | dbCorrupted
  | wtf
  | encoding
  | uniqueViolation
  | indexOutOfRange
  | badStreamID
deriving DecidableEq, Repr

/-- Modelled from the spec: the codec recognises a fixed set of versions
(§4.3, "fails ... on an unrecognized version"); the store's configured
insert version is 2 (source field `insertversion`). -/
def validVersion (v : Int) : Bool :=
  v == 1 || v == 2

/-- Modelled from the spec (§4.3): `Encode(array, version)` of the external
codec. The payload bytes are abstracted as the datapoint array itself, so
encoding succeeds exactly when the version is recognised. -/
def DatapointArray.Encode (da : DatapointArray) (version : Int) : Except Err DatapointArray :=
  if validVersion version then .ok da else .error .encoding

/-- Modelled from the spec (§4.3): `Decode(bytes, version)` of the external
codec, inverse of `DatapointArray.Encode` on recognised versions. -/
def DecodeDatapointArray (data : DatapointArray) (version : Int) : Except Err DatapointArray :=
  if validVersion version then .ok data else .error .encoding

/-- Modelled from the spec: trimming from a time boundary (§4.1 GetByTime
"trims it to only the datapoints with timestamp ≥ startTime", inclusive
boundary per §9); on a time-ordered array this equals dropping the prefix
of earlier datapoints. Source method `DatapointArray.TStart`, not in the
given source file. -/
def DatapointArray.TStart (da : DatapointArray) (t : Int) : DatapointArray :=
  da.filter (fun p => decide (t ≤ p.Timestamp))

/-- Modelled from the spec: slicing by position (§3; §4.1 GetByIndex "the
array is sliced to its last tail elements"). Source method
`DatapointArray.IRange i1 i2`, the sub-array from position `i1` (inclusive)
to `i2` (exclusive); not in the given source file. -/
def DatapointArray.IRange (da : DatapointArray) (i1 i2 : Nat) : DatapointArray :=
  (da.take i2).drop i1

/-- One row of the `datastream` table (source schema comment, lines 11-20):
StreamId, Substream, EndTime, EndIndex, Version, Data. The encoded payload
is abstracted as the datapoint array it decodes to. -/
structure Row where
  streamID : Int
  substream : String
  endTime : Int
  endIndex : Int
  version : Int
  data : DatapointArray
deriving DecidableEq, Repr

/-- The `datastream` table, as the list of its rows. -/
abbrev DB := List Row

/-- The rows of the table belonging to one (StreamId, Substream) key:
the `WHERE StreamID=$1 AND Substream=$2` clause shared by the prepared
statements. -/
def keyRows (db : DB) (sid : Int) (sub : String) : List Row :=
  db.filter (fun r => r.streamID == sid && r.substream == sub)

/-- Ordering of rows by `EndIndex`, the `ORDER BY EndIndex ASC` clause of
the index query. -/
def rowLeIdx (a b : Row) : Prop :=
  a.endIndex ≤ b.endIndex

/-- Ordering of rows by `EndTime`, the `ORDER BY EndTime ASC` clause of
the time query. -/
def rowLeTime (a b : Row) : Prop :=
  a.endTime ≤ b.endTime

instance : DecidableRel rowLeIdx := fun a b => Int.decLe a.endIndex b.endIndex

instance : DecidableRel rowLeTime := fun a b => Int.decLe a.endTime b.endTime

instance : IsTotal Row rowLeIdx := ⟨fun a b => Int.le_total a.endIndex b.endIndex⟩

instance : IsTrans Row rowLeIdx := ⟨fun _ _ _ h h' => le_trans h h'⟩

instance : IsTotal Row rowLeTime := ⟨fun a b => Int.le_total a.endTime b.endTime⟩

instance : IsTrans Row rowLeTime := ⟨fun _ _ _ h h' => le_trans h h'⟩

/-- The prepared statement `indexquery` (source line 81):
`SELECT Version,EndIndex,Data FROM datastream WHERE StreamID=$1 AND
Substream=$2 AND EndIndex > $3 ORDER BY EndIndex ASC`. -/
def indexquery (db : DB) (sid : Int) (sub : String) (startindex : Int) : List Row :=
  List.insertionSort rowLeIdx
    (db.filter (fun r => r.streamID == sid && r.substream == sub &&
      decide (startindex < r.endIndex)))

/-- The prepared statement `timequery` (source line 80):
`SELECT Version,EndIndex,Data FROM datastream WHERE StreamID=$1 AND
Substream=$2 AND EndTime > $3 ORDER BY EndTime ASC`. -/
def timequery (db : DB) (sid : Int) (sub : String) (starttime : Int) : List Row :=
  List.insertionSort rowLeTime
    (db.filter (fun r => r.streamID == sid && r.substream == sub &&
      decide (starttime < r.endTime)))

/-- The value of `COALESCE(MAX(EndIndex),0)` for a key: the maximum
`EndIndex` over the key's rows, or 0 when the key has no rows. -/
def maxEndIndex (db : DB) (sid : Int) (sub : String) : Int :=
  match keyRows db sid sub with
  | [] => 0
  | r :: rs => rs.foldl (fun m x => max m x.endIndex) r.endIndex

/-- The result rows of the prepared statement `endindex` (source line 82):
the aggregate query always yields exactly one row. -/
def endindexQueryRows (db : DB) (sid : Int) (sub : String) : List Int :=
  [maxEndIndex db sid sub]

/-- State of one prepared-statement handle of the store: a nil pointer, a
live prepared statement, or a released one. -/
inductive Handle where
  | nil
  | prepared
  | released
deriving DecidableEq, Repr

/-- The guarded release performed by `Close` for one handle: a nil handle
is skipped (source: a nil test guards each release); releasing an already
released statement is a no-op, matching the Go statement semantics. -/
def closeHandle : Handle → Handle
  | .nil => .nil
  | _ => .released

/-- The `SqlStore` struct (source lines 32-42): the seven prepared
statements plus the configured codec version for inserts. -/
structure SqlStore where
  inserter : Handle
  timequery : Handle
  indexquery : Handle
  endindex : Handle
  delsubstream : Handle
  delstream : Handle
  clearall : Handle
  insertversion : Int
deriving DecidableEq, Repr

/-- A store as produced by a fully successful `prepareSqlStore` (source
line 67): all seven statements prepared, insert version 2. -/
def fullStore : SqlStore :=
  ⟨.prepared, .prepared, .prepared, .prepared, .prepared, .prepared, .prepared, 2⟩

/-- Embedding of `Close` (source lines 94-114): releases, with a nil check
on each, the six handles `inserter`, `timequery`, `indexquery`, `endindex`,
`delstream`, `delsubstream` — and no other field. -/
def Close (s : SqlStore) : SqlStore :=
  { s with
    inserter := closeHandle s.inserter
    timequery := closeHandle s.timequery
    indexquery := closeHandle s.indexquery
    endindex := closeHandle s.endindex
    delstream := closeHandle s.delstream
    delsubstream := closeHandle s.delsubstream }

/-- Embedding of `GetEndIndex` (source lines 125-136): runs the aggregate
end-index query; an empty result set is `ErrWTF`, otherwise the single
row's value is returned. -/
def GetEndIndex (db : DB) (streamID : Int) (substream : String) : Except Err Int :=
  match endindexQueryRows db streamID substream with
  | [] => .error .wtf
  | ei :: _ => .ok ei

/-- Embedding of `Insert` (source lines 139-147): encodes the array with
the store's insert version, reads the last element's timestamp
(`da[len(da)-1].Timestamp`, a panic on an empty array), and executes the
insert statement, which appends one row with
`EndIndex = startindex + len(da)` unless the engine's uniqueness
constraint on (StreamId, Substream, EndIndex) rejects it. -/
def Insert (s : SqlStore) (db : DB) (streamID : Int) (substream : String)
    (startindex : Int) (da : DatapointArray) : Except Err DB :=
  match DatapointArray.Encode da s.insertversion with
  | .error e => .error e
  | .ok dbytes =>
    match da[da.length - 1]? with
    | none => .error .indexOutOfRange
    | some p =>
      if (keyRows db streamID substream).any
          (fun r => r.endIndex == startindex + (da.length : Int)) then
        .error .uniqueViolation
      else
        .ok (db ++ [⟨streamID, substream, p.Timestamp,
          startindex + (da.length : Int), s.insertversion, dbytes⟩])

/-- Modelled from the spec: a batch "already carries its target key and
startIndex extracted from its own metadata" (§4.1 WriteBatches); reading
the stream id out of the metadata can fail (source call
`b[i].GetStreamID()`), modelled by an optional id. The `Batch` type is not
in the given source file. -/
structure Batch where
  Stream : Option Int
  Substream : String
  StartIndex : Int
  Data : DatapointArray
deriving DecidableEq, Repr

/-- Modelled from the spec: `GetStreamID` reads the batch's stream id from
its metadata, failing when it is malformed; not in the given source file. -/
def Batch.GetStreamID (b : Batch) : Except Err Int :=
  match b.Stream with
  | none => .error .badStreamID
  | some sid => .ok sid

/-- One iteration of the `WriteBatches` loop body (source lines 152-159):
read the batch's stream id, then insert its data at its start index. -/
def batchStep (s : SqlStore) (db : DB) (b : Batch) : Except Err DB :=
  match b.GetStreamID with
  | .error e => .error e
  | .ok sid => Insert s db sid b.Substream b.StartIndex b.Data

/-- Embedding of `WriteBatches` (source lines 150-162): inserts the batches
in list order, stopping at the first failure. The returned table is the
state actually left behind — rows written before a failure stay written. -/
def WriteBatches (s : SqlStore) (db : DB) : List Batch → DB × Option Err
  | [] => (db, none)
  | b :: rest =>
    match batchStep s db b with
    | .error e => (db, some e)
    | .ok db' => WriteBatches s db' rest

/-- Embedding of `Append` (source lines 165-171): read the key's end index,
then insert at it. -/
def Append (s : SqlStore) (db : DB) (streamID : Int) (substream : String)
    (dp : DatapointArray) : Except Err DB :=
  match GetEndIndex db streamID substream with
  | .error e => .error e
  | .ok i => Insert s db streamID substream i dp

/-- A sequence of sequential `Append` calls to one key, stopping at the
first failure. -/
def appendAll (s : SqlStore) (db : DB) (streamID : Int) (substream : String) :
    List DatapointArray → Except Err DB
  | [] => .ok db
  | a :: as =>
    match Append s db streamID substream a with
    | .error e => .error e
    | .ok db' => appendAll s db' streamID substream as

/-- The `DataRange` returned by the read operations: the explicitly empty
variant `EmptyRange{}`, or `SqlRange{rows, da}` holding the not yet decoded
remaining rows of the query plus the already decoded (and trimmed) first
array. The range types are not in the given source file; modelled from the
spec (§4.2). -/
inductive DataRange where
  | empty
  | sql (rows : List Row) (da : DatapointArray)
deriving DecidableEq, Repr

/-- Embedding of `GetByTime` (source lines 186-222): runs the time query;
with no matching row returns the empty range at the key's end index;
otherwise decodes the first row, trims it from the start time, applies the
corruption check `len(da) > endindex`, and returns the cursor range with
`endindex - len(da)` as the absolute start index. -/
def GetByTime (s : SqlStore) (db : DB) (streamID : Int) (substream : String)
    (starttime : Int) : Except Err (DataRange × Int) :=
  match timequery db streamID substream starttime with
  | [] =>
    match GetEndIndex db streamID substream with
    | .error e => .error e
    | .ok startindex => .ok (.empty, startindex)
  | r :: rest =>
    match DecodeDatapointArray r.data r.version with
    | .error e => .error e
    | .ok da0 =>
      let da := DatapointArray.TStart da0 starttime
      if (da.length : Int) > r.endIndex then .error .dbCorrupted
      else .ok (.sql rest da, r.endIndex - (da.length : Int))

/-- Embedding of `GetByIndex` (source lines 225-268): runs the index query;
with no matching row returns the empty range at the key's end index;
otherwise decodes the first row, applies the corruption check
`len(da) > endindex`, slices off the already consumed prefix when
`fromend = endindex - startindex` is shorter than the array, and returns
the cursor range with `endindex - len(da)` as the absolute start index. -/
def GetByIndex (s : SqlStore) (db : DB) (streamID : Int) (substream : String)
    (startindex : Int) : Except Err (DataRange × Int) :=
  match indexquery db streamID substream startindex with
  | [] =>
    match GetEndIndex db streamID substream with
    | .error e => .error e
    | .ok i => .ok (.empty, i)
  | r :: rest =>
    match DecodeDatapointArray r.data r.version with
    | .error e => .error e
    | .ok da0 =>
      if (da0.length : Int) > r.endIndex then .error .dbCorrupted
      else
        let fromend : Int := r.endIndex - startindex
        let da := if fromend < (da0.length : Int) then
            DatapointArray.IRange da0 (da0.length - fromend.toNat) da0.length
          else da0
        .ok (.sql rest da, r.endIndex - (da.length : Int))

/-- Well-formedness of the stored data of one key, used by the claims that
presuppose intact storage: every row decodes under a recognised codec
version, holds a non-empty array, starts at a non-negative position
(`EndIndex - length` ≥ 0), and, unless it starts at position 0, some row of
the same key ends exactly where it starts (contiguous coverage). -/
def ValidKey (db : DB) (sid : Int) (sub : String) : Prop :=
  ∀ r ∈ keyRows db sid sub,
    r.data ≠ [] ∧ validVersion r.version = true ∧
    (r.data.length : Int) ≤ r.endIndex ∧
    (r.endIndex - (r.data.length : Int) ≠ 0 →
      ∃ q ∈ keyRows db sid sub, q.endIndex = r.endIndex - (r.data.length : Int))

instance (db : DB) (sid : Int) (sub : String) : Decidable (ValidKey db sid sub) :=
  List.decidableBAll _ _

instance {ε α : Type} [DecidableEq ε] [DecidableEq α] : DecidableEq (Except ε α) := fun a b =>
  match a, b with
  | .ok x, .ok y => if h : x = y then .isTrue (by simp [h]) else .isFalse (by simp [h])
  | .error x, .error y => if h : x = y then .isTrue (by simp [h]) else .isFalse (by simp [h])
  | .ok _, .error _ => .isFalse (by simp)
  | .error _, .ok _ => .isFalse (by simp)

/-! ## Helper lemmas -/

lemma le_foldlMax (l : List Row) (a : Int) :
    a ≤ l.foldl (fun m x => max m x.endIndex) a := by
  induction l generalizing a with
  | nil => simp
  | cons x xs ih => exact le_trans (le_max_left a x.endIndex) (ih _)

lemma foldlMax_le_of_mem {l : List Row} {q : Row} (hq : q ∈ l) (a : Int) :
    q.endIndex ≤ l.foldl (fun m x => max m x.endIndex) a := by
  induction l generalizing a with
  | nil => cases hq
  | cons x xs ih =>
    rcases List.mem_cons.mp hq with h | h
    · subst h
      exact le_trans (le_max_right a q.endIndex) (le_foldlMax xs _)
    · exact ih h _

lemma foldlMax_cases (l : List Row) (a : Int) :
    l.foldl (fun m x => max m x.endIndex) a = a ∨
      ∃ q ∈ l, l.foldl (fun m x => max m x.endIndex) a = q.endIndex := by
  induction l generalizing a with
  | nil => exact Or.inl rfl
  | cons x xs ih =>
    rcases ih (max a x.endIndex) with h | ⟨q, hq, h⟩
    · rcases max_choice a x.endIndex with hm | hm
      · exact Or.inl (by simpa [hm] using h)
      · exact Or.inr ⟨x, List.mem_cons_self x xs, by simpa [hm] using h⟩
    · exact Or.inr ⟨q, List.mem_cons_of_mem x hq, h⟩

lemma mem_keyRows {db : DB} {sid : Int} {sub : String} {r : Row} :
    r ∈ keyRows db sid sub ↔ r ∈ db ∧ r.streamID = sid ∧ r.substream = sub := by
  simp [keyRows, List.mem_filter, and_assoc]

lemma maxEndIndex_of_nil {db : DB} {sid : Int} {sub : String}
    (h : keyRows db sid sub = []) : maxEndIndex db sid sub = 0 := by
  simp [maxEndIndex, h]

lemma endIndex_le_maxEndIndex {db : DB} {sid : Int} {sub : String} {q : Row}
    (hq : q ∈ keyRows db sid sub) : q.endIndex ≤ maxEndIndex db sid sub := by
  rcases hk : keyRows db sid sub with _ | ⟨r, rs⟩
  · rw [hk] at hq; cases hq
  · rw [hk] at hq
    simp only [maxEndIndex, hk]
    rcases List.mem_cons.mp hq with h | h
    · subst h; exact le_foldlMax rs _
    · exact foldlMax_le_of_mem h _

lemma maxEndIndex_attained {db : DB} {sid : Int} {sub : String}
    (h : keyRows db sid sub ≠ []) :
    ∃ q ∈ keyRows db sid sub, q.endIndex = maxEndIndex db sid sub := by
  rcases hk : keyRows db sid sub with _ | ⟨r, rs⟩
  · exact absurd hk h
  · simp only [maxEndIndex, hk]
    rcases foldlMax_cases rs r.endIndex with h1 | ⟨q, hq, h1⟩
    · exact ⟨r, List.mem_cons_self r rs, h1.symm⟩
    · exact ⟨q, List.mem_cons_of_mem r hq, h1.symm⟩

lemma getEndIndex_eq (db : DB) (sid : Int) (sub : String) :
    GetEndIndex db sid sub = .ok (maxEndIndex db sid sub) := rfl

lemma mem_indexquery {db : DB} {sid : Int} {sub : String} {i : Int} {r : Row} :
    r ∈ indexquery db sid sub i ↔ r ∈ keyRows db sid sub ∧ i < r.endIndex := by
  simp [indexquery, keyRows, List.mem_filter, and_assoc]

lemma mem_timequery {db : DB} {sid : Int} {sub : String} {t : Int} {r : Row} :
    r ∈ timequery db sid sub t ↔ r ∈ keyRows db sid sub ∧ t < r.endTime := by
  simp [timequery, keyRows, List.mem_filter, and_assoc]

lemma indexquery_sorted (db : DB) (sid : Int) (sub : String) (i : Int) :
    List.Sorted rowLeIdx (indexquery db sid sub i) :=
  List.sorted_insertionSort rowLeIdx _

lemma timequery_sorted (db : DB) (sid : Int) (sub : String) (t : Int) :
    List.Sorted rowLeTime (timequery db sid sub t) :=
  List.sorted_insertionSort rowLeTime _

lemma indexquery_head {db : DB} {sid : Int} {sub : String} {i : Int} {r : Row}
    {rest : List Row} (h : indexquery db sid sub i = r :: rest) :
    r ∈ keyRows db sid sub ∧ i < r.endIndex ∧
      ∀ q ∈ keyRows db sid sub, i < q.endIndex → r.endIndex ≤ q.endIndex := by
  have hr : r ∈ indexquery db sid sub i := by rw [h]; exact List.mem_cons_self r rest
  obtain ⟨h1, h2⟩ := mem_indexquery.mp hr
  refine ⟨h1, h2, fun q hq hqi => ?_⟩
  have hq' : q ∈ indexquery db sid sub i := mem_indexquery.mpr ⟨hq, hqi⟩
  rw [h] at hq'
  rcases List.mem_cons.mp hq' with h3 | h3
  · rw [h3]
  · have hs := indexquery_sorted db sid sub i
    rw [h] at hs
    exact List.rel_of_sorted_cons hs q h3

lemma keyRows_append (db : DB) (sid : Int) (sub : String) (row : Row)
    (hs : row.streamID = sid) (hb : row.substream = sub) :
    keyRows (db ++ [row]) sid sub = keyRows db sid sub ++ [row] := by
  simp [keyRows, List.filter_append, hs, hb]

lemma maxEndIndex_append {db : DB} {sid : Int} {sub : String} {row : Row}
    (hs : row.streamID = sid) (hb : row.substream = sub)
    (hge : maxEndIndex db sid sub ≤ row.endIndex) :
    maxEndIndex (db ++ [row]) sid sub = row.endIndex := by
  rcases hk : keyRows db sid sub with _ | ⟨r, rs⟩
  · simp [maxEndIndex, keyRows_append db sid sub row hs hb, hk]
  · have : keyRows (db ++ [row]) sid sub = r :: (rs ++ [row]) := by
      rw [keyRows_append db sid sub row hs hb, hk]; rfl
    simp only [maxEndIndex, this, List.foldl_append, List.foldl_cons, List.foldl_nil]
    have hE : maxEndIndex db sid sub = rs.foldl (fun m x => max m x.endIndex) r.endIndex := by
      simp [maxEndIndex, hk]
    rw [← hE]
    exact max_eq_right hge

lemma insert_ok (s : SqlStore) (db : DB) (sid : Int) (sub : String) (i : Int)
    (da : DatapointArray) (hs : s.insertversion = 2) (hne : da ≠ [])
    (hge : maxEndIndex db sid sub ≤ i) :
    ∃ p, da.getLast? = some p ∧
      Insert s db sid sub i da =
        .ok (db ++ [⟨sid, sub, p.Timestamp, i + (da.length : Int), 2, da⟩]) ∧
      maxEndIndex (db ++ [⟨sid, sub, p.Timestamp, i + (da.length : Int), 2, da⟩]) sid sub =
        i + (da.length : Int) := by
  have hlen : 0 < da.length := List.length_pos.mpr hne
  have hidx : da.length - 1 < da.length := by omega
  obtain ⟨p, hp⟩ : ∃ p, da[da.length - 1]? = some p :=
    ⟨da[da.length - 1], List.getElem?_eq_getElem hidx⟩
  have hany : (keyRows db sid sub).any
      (fun r => r.endIndex == i + (da.length : Int)) = false := by
    rw [List.any_eq_false]
    intro q hq
    have h1 : q.endIndex ≤ maxEndIndex db sid sub := endIndex_le_maxEndIndex hq
    simp only [beq_iff_eq]
    omega
  refine ⟨p, ?_, ?_, ?_⟩
  · rw [List.getLast?_eq_getElem? da]; exact hp
  · simp [Insert, DatapointArray.Encode, validVersion, hs, hp, hany]
  · exact maxEndIndex_append rfl rfl
      (by show maxEndIndex db sid sub ≤ i + (da.length : Int); omega)

lemma timequery_head {db : DB} {sid : Int} {sub : String} {t : Int} {r : Row}
    {rest : List Row} (h : timequery db sid sub t = r :: rest) :
    r ∈ keyRows db sid sub ∧ t < r.endTime ∧
      ∀ q ∈ keyRows db sid sub, t < q.endTime → r.endTime ≤ q.endTime := by
  have hr : r ∈ timequery db sid sub t := by rw [h]; exact List.mem_cons_self r rest
  obtain ⟨h1, h2⟩ := mem_timequery.mp hr
  refine ⟨h1, h2, fun q hq hqt => ?_⟩
  have hq' : q ∈ timequery db sid sub t := mem_timequery.mpr ⟨hq, hqt⟩
  rw [h] at hq'
  rcases List.mem_cons.mp hq' with h3 | h3
  · rw [h3]
  · have hs := timequery_sorted db sid sub t
    rw [h] at hs
    exact List.rel_of_sorted_cons hs q h3

/-! ## Claim theorems -/

/-- C9: for a key with no stored rows `GetEndIndex` returns 0 and no error;
the `ErrWTF` branch is taken exactly when the aggregate query yields no row
at all, which the zero-coalescing aggregate makes structurally impossible —
so absence of data is never reported through that error. -/
theorem GetEndIndex_no_rows_spec (db : DB) (sid : Int) (sub : String) :
    (keyRows db sid sub = [] → GetEndIndex db sid sub = .ok 0) ∧
    (GetEndIndex db sid sub = .error .wtf ↔ endindexQueryRows db sid sub = []) ∧
    endindexQueryRows db sid sub ≠ [] := by
  refine ⟨fun h => by simp [GetEndIndex, endindexQueryRows, maxEndIndex_of_nil h],
    ⟨fun h => ?_, fun h => ?_⟩, by simp [endindexQueryRows]⟩
  · simp [GetEndIndex, endindexQueryRows] at h
  · simp [endindexQueryRows] at h

/-- Witness for C9: a key that never existed in a table holding another
key's row yields end index 0 without error. -/
theorem GetEndIndex_no_rows_witness :
    GetEndIndex ([⟨2, "x", 1, 7, 2, [⟨1, 0⟩]⟩] : DB) 1 "" = .ok 0 :=
  (GetEndIndex_no_rows_spec [⟨2, "x", 1, 7, 2, [⟨1, 0⟩]⟩] 1 "").1 (by decide)

/-- C5: when the time and index queries match no stored row, `GetByTime` and
`GetByIndex` both return the explicitly empty range paired with the key's
end index as reported by `GetEndIndex`, which is 0 for a key with no rows
at all. -/
theorem Get_no_matching_row_spec (s : SqlStore) (db : DB) (sid : Int)
    (sub : String) (t i : Int)
    (ht : timequery db sid sub t = []) (hi : indexquery db sid sub i = []) :
    GetByTime s db sid sub t = .ok (.empty, maxEndIndex db sid sub) ∧
    GetByIndex s db sid sub i = .ok (.empty, maxEndIndex db sid sub) ∧
    GetEndIndex db sid sub = .ok (maxEndIndex db sid sub) ∧
    (keyRows db sid sub = [] → maxEndIndex db sid sub = 0) :=
  ⟨by simp [GetByTime, ht, GetEndIndex, endindexQueryRows],
   by simp [GetByIndex, hi, GetEndIndex, endindexQueryRows],
   rfl, maxEndIndex_of_nil⟩

/-- Witness for C5: reads on a key with no stored data, next to a row of a
different stream, return the empty range at index 0. -/
theorem Get_no_matching_row_witness :
    GetByTime fullStore [⟨2, "", 5, 3, 2, [⟨1, 0⟩]⟩] 1 "" 0 = .ok (.empty, 0) ∧
    GetByIndex fullStore [⟨2, "", 5, 3, 2, [⟨1, 0⟩]⟩] 1 "" 0 = .ok (.empty, 0) :=
  ⟨(Get_no_matching_row_spec fullStore [⟨2, "", 5, 3, 2, [⟨1, 0⟩]⟩] 1 "" 0 0
      (by decide) (by decide)).1,
   (Get_no_matching_row_spec fullStore [⟨2, "", 5, 3, 2, [⟨1, 0⟩]⟩] 1 "" 0 0
      (by decide) (by decide)).2.1⟩

/-- C2 (evaluating the code at the failing input): `Close` on a fully
constructed store releases the six handles it names but leaves the seventh
prepared statement, `clearall`, unreleased — contrary to the claim and to
the function's own comment that all resources are released; calling `Close`
twice is the same as calling it once. -/
theorem Close_clearall_bug :
    Close fullStore =
      ⟨.released, .released, .released, .released, .released, .released, .prepared, 2⟩ ∧
    (Close fullStore).clearall = .prepared ∧
    Close (Close fullStore) = Close fullStore := by
  decide

/-- C10: under the non-empty precondition the last-element access
`da[len(da)-1]` inside `Insert` is in bounds and the out-of-bounds branch
is unreachable; on the empty array that access is out of bounds and
`Insert` lands exactly there. -/
theorem Insert_last_access_spec (s : SqlStore) (db : DB) (sid : Int)
    (sub : String) (i : Int) (da : DatapointArray) (hs : s.insertversion = 2) :
    (da ≠ [] → ∃ p, da[da.length - 1]? = some p ∧
      Insert s db sid sub i da ≠ .error .indexOutOfRange) ∧
    (da = [] → da[da.length - 1]? = none ∧
      Insert s db sid sub i da = .error .indexOutOfRange) := by
  have hv : validVersion s.insertversion = true := by rw [hs]; decide
  constructor
  · intro hne
    have hlen : 0 < da.length := List.length_pos.mpr hne
    have hidx : da.length - 1 < da.length := by omega
    refine ⟨da[da.length - 1], List.getElem?_eq_getElem hidx, ?_⟩
    simp only [Insert, DatapointArray.Encode, hv, if_true, List.getElem?_eq_getElem hidx]
    split <;> simp
  · intro he
    subst he
    exact ⟨rfl, by simp [Insert, DatapointArray.Encode, hv]⟩

/-- Witness for C10: a one-point array is inserted without reaching the
out-of-bounds branch; the empty array reaches exactly that branch. -/
theorem Insert_last_access_witness :
    (∃ p, (([⟨1, 0⟩] : DatapointArray))[([⟨1, 0⟩] : DatapointArray).length - 1]? = some p ∧
      Insert fullStore [] 1 "" 0 [⟨1, 0⟩] ≠ .error .indexOutOfRange) ∧
    (([] : DatapointArray)[([] : DatapointArray).length - 1]? = none ∧
      Insert fullStore [] 1 "" 0 [] = .error .indexOutOfRange) :=
  ⟨(Insert_last_access_spec fullStore [] 1 "" 0 [⟨1, 0⟩] rfl).1 (by decide),
   (Insert_last_access_spec fullStore [] 1 "" 0 [] rfl).2 rfl⟩

/-- C6: for a non-empty array and a start index at least the key's current
end index, `Insert` succeeds without any read-before-write check, appends
exactly one row whose `EndIndex` is the start index plus the array length
and whose `EndTime` is the last element's timestamp, and `GetEndIndex`
afterwards reports exactly that `EndIndex`. -/
theorem Insert_getEndIndex_spec (s : SqlStore) (db : DB) (sid : Int)
    (sub : String) (i e0 : Int) (da : DatapointArray)
    (hs : s.insertversion = 2) (hne : da ≠ [])
    (hE : GetEndIndex db sid sub = .ok e0) (hle : e0 ≤ i) :
    ∃ p, da.getLast? = some p ∧
      Insert s db sid sub i da =
        .ok (db ++ [⟨sid, sub, p.Timestamp, i + (da.length : Int), 2, da⟩]) ∧
      GetEndIndex (db ++ [⟨sid, sub, p.Timestamp, i + (da.length : Int), 2, da⟩]) sid sub =
        .ok (i + (da.length : Int)) := by
  have he0 : maxEndIndex db sid sub = e0 := by
    simpa [getEndIndex_eq] using hE
  obtain ⟨p, h1, h2, h3⟩ := insert_ok s db sid sub i da hs hne (by omega)
  exact ⟨p, h1, h2, by rw [getEndIndex_eq, h3]⟩

/-- Witness for C6: inserting a two-point array at index 3 (the current end
index) of a key holding three points makes the end index 5. -/
theorem Insert_getEndIndex_witness :
    ∃ p, ([⟨12, 0⟩, ⟨15, 0⟩] : DatapointArray).getLast? = some p ∧
      Insert fullStore [⟨1, "", 10, 3, 2, [⟨1, 0⟩, ⟨5, 0⟩, ⟨10, 0⟩]⟩] 1 "" 3
          [⟨12, 0⟩, ⟨15, 0⟩] =
        .ok ([⟨1, "", 10, 3, 2, [⟨1, 0⟩, ⟨5, 0⟩, ⟨10, 0⟩]⟩] ++
          [⟨1, "", p.Timestamp, 3 + (([⟨12, 0⟩, ⟨15, 0⟩] : DatapointArray).length : Int), 2,
            [⟨12, 0⟩, ⟨15, 0⟩]⟩]) ∧
      GetEndIndex ([⟨1, "", 10, 3, 2, [⟨1, 0⟩, ⟨5, 0⟩, ⟨10, 0⟩]⟩] ++
          [⟨1, "", p.Timestamp, 3 + (([⟨12, 0⟩, ⟨15, 0⟩] : DatapointArray).length : Int), 2,
            [⟨12, 0⟩, ⟨15, 0⟩]⟩]) 1 "" =
        .ok (3 + (([⟨12, 0⟩, ⟨15, 0⟩] : DatapointArray).length : Int)) :=
  Insert_getEndIndex_spec fullStore [⟨1, "", 10, 3, 2, [⟨1, 0⟩, ⟨5, 0⟩, ⟨10, 0⟩]⟩]
    1 "" 3 3 [⟨12, 0⟩, ⟨15, 0⟩] rfl (by decide) (by decide) (by decide)

/-- C1 counterexample: for key (1, "") the table holds a batch ending at
index 3 and a second batch ending at index 5 whose payload decodes to 4
datapoints — more than the delta 5 − 3 = 2 to the previous batch's
EndIndex. `GetByIndex` at start index 3 reads that second row and succeeds
with a sliced result instead of returning `ErrorDatabaseCorrupted`: the
code compares the decoded length against the row's absolute `EndIndex`,
not against the delta. -/
theorem GetByIndex_delta_corruption_cex :
    DecodeDatapointArray [⟨11, 0⟩, ⟨12, 0⟩, ⟨13, 0⟩, ⟨15, 0⟩] 2 =
      .ok [⟨11, 0⟩, ⟨12, 0⟩, ⟨13, 0⟩, ⟨15, 0⟩] ∧
    ((([⟨11, 0⟩, ⟨12, 0⟩, ⟨13, 0⟩, ⟨15, 0⟩] : DatapointArray).length : Int) > 5 - 3) ∧
    GetByIndex fullStore
      [⟨1, "", 10, 3, 2, [⟨1, 0⟩, ⟨5, 0⟩, ⟨10, 0⟩]⟩,
       ⟨1, "", 15, 5, 2, [⟨11, 0⟩, ⟨12, 0⟩, ⟨13, 0⟩, ⟨15, 0⟩]⟩] 1 "" 3 =
      .ok (.sql [] [⟨13, 0⟩, ⟨15, 0⟩], 3) := by
  exact ⟨by decide, by decide, by decide⟩

/-- C1 amended: if the first row read by `GetByIndex` or `GetByTime`
decodes (and, for `GetByTime`, time-trims) to an array whose length exceeds
that row's stored `EndIndex`, the operation returns
`ErrorDatabaseCorrupted` rather than any successful result. -/
theorem corruption_check_spec :
    (∀ (s : SqlStore) (db : DB) (sid : Int) (sub : String) (i : Int)
        (r : Row) (rest : List Row) (da : DatapointArray),
      indexquery db sid sub i = r :: rest →
      DecodeDatapointArray r.data r.version = .ok da →
      (da.length : Int) > r.endIndex →
      GetByIndex s db sid sub i = .error .dbCorrupted) ∧
    (∀ (s : SqlStore) (db : DB) (sid : Int) (sub : String) (t : Int)
        (r : Row) (rest : List Row) (da : DatapointArray),
      timequery db sid sub t = r :: rest →
      DecodeDatapointArray r.data r.version = .ok da →
      ((DatapointArray.TStart da t).length : Int) > r.endIndex →
      GetByTime s db sid sub t = .error .dbCorrupted) := by
  constructor
  · intro s db sid sub i r rest da h1 h2 h3
    simp [GetByIndex, h1, h2, h3]
  · intro s db sid sub t r rest da h1 h2 h3
    simp [GetByTime, h1, h2, h3]

/-- Witness for the amended C1: a single stored row claiming EndIndex 2 but
decoding to 4 datapoints makes both reads report corruption. -/
theorem corruption_check_witness :
    GetByIndex fullStore [⟨1, "", 10, 2, 2, [⟨1, 0⟩, ⟨2, 0⟩, ⟨3, 0⟩, ⟨4, 0⟩]⟩] 1 "" 0 =
      .error .dbCorrupted ∧
    GetByTime fullStore [⟨1, "", 10, 2, 2, [⟨1, 0⟩, ⟨2, 0⟩, ⟨3, 0⟩, ⟨4, 0⟩]⟩] 1 "" 0 =
      .error .dbCorrupted :=
  ⟨corruption_check_spec.1 fullStore [⟨1, "", 10, 2, 2, [⟨1, 0⟩, ⟨2, 0⟩, ⟨3, 0⟩, ⟨4, 0⟩]⟩]
      1 "" 0 ⟨1, "", 10, 2, 2, [⟨1, 0⟩, ⟨2, 0⟩, ⟨3, 0⟩, ⟨4, 0⟩]⟩ []
      [⟨1, 0⟩, ⟨2, 0⟩, ⟨3, 0⟩, ⟨4, 0⟩] (by decide) (by decide) (by decide),
   corruption_check_spec.2 fullStore [⟨1, "", 10, 2, 2, [⟨1, 0⟩, ⟨2, 0⟩, ⟨3, 0⟩, ⟨4, 0⟩]⟩]
      1 "" 0 ⟨1, "", 10, 2, 2, [⟨1, 0⟩, ⟨2, 0⟩, ⟨3, 0⟩, ⟨4, 0⟩]⟩ []
      [⟨1, 0⟩, ⟨2, 0⟩, ⟨3, 0⟩, ⟨4, 0⟩] (by decide) (by decide) (by decide)⟩

lemma writeBatches_append_of_ok (s : SqlStore) :
    ∀ (bs1 : List Batch) (db db1 : DB) (bs2 : List Batch),
      WriteBatches s db bs1 = (db1, none) →
      WriteBatches s db (bs1 ++ bs2) = WriteBatches s db1 bs2 := by
  intro bs1
  induction bs1 with
  | nil =>
    intro db db1 bs2 h
    simp only [WriteBatches, Prod.mk.injEq] at h
    rw [List.nil_append, h.1]
  | cons b rest ih =>
    intro db db1 bs2 h
    simp only [WriteBatches, List.cons_append] at h ⊢
    cases hb : batchStep s db b with
    | error e => rw [hb] at h; simp at h
    | ok db2 => rw [hb] at h; exact ih db2 db1 bs2 h

/-- C8: `WriteBatches` inserts batches sequentially in list order: the
empty list succeeds writing nothing; after a prefix that succeeded, the
first failing batch — whether its stream id cannot be read or its insert
fails — stops the run with that error while the table state produced by
the prefix remains committed, with no rollback. -/
theorem WriteBatches_spec (s : SqlStore) (db db1 : DB) (bs1 bs2 : List Batch)
    (b : Batch) (e : Err)
    (h1 : WriteBatches s db bs1 = (db1, none))
    (h2 : batchStep s db1 b = .error e) :
    WriteBatches s db (bs1 ++ b :: bs2) = (db1, some e) ∧
    WriteBatches s db ([] : List Batch) = (db, none) := by
  refine ⟨?_, rfl⟩
  rw [writeBatches_append_of_ok s bs1 db db1 (b :: bs2) h1]
  simp [WriteBatches, h2]

/-- Witness for C8: one good batch commits its row; the following batch
with an unreadable stream id stops the run, the committed row surviving and
the batch after the failure never being attempted. -/
theorem WriteBatches_witness :
    WriteBatches fullStore []
        [⟨some 1, "", 0, [⟨1, 0⟩]⟩, ⟨none, "", 1, [⟨2, 0⟩]⟩, ⟨some 1, "", 5, [⟨9, 0⟩]⟩] =
      ([⟨1, "", 1, 1, 2, [⟨1, 0⟩]⟩], some .badStreamID) :=
  (WriteBatches_spec fullStore [] [⟨1, "", 1, 1, 2, [⟨1, 0⟩]⟩]
    [⟨some 1, "", 0, [⟨1, 0⟩]⟩] [⟨some 1, "", 5, [⟨9, 0⟩]⟩]
    ⟨none, "", 1, [⟨2, 0⟩]⟩ .badStreamID (by decide) (by decide)).1

/-- C4: `GetByTime` reads the earliest stored batch of the key whose
`EndTime` strictly exceeds the start time, trims its decoded array to the
datapoints with timestamp at least the start time, returns exactly those
datapoints, and reports as absolute start index the batch's `EndIndex`
minus the trimmed array's length. -/
theorem GetByTime_spec (s : SqlStore) (db : DB) (sid : Int) (sub : String)
    (t : Int) (r : Row) (rest : List Row)
    (h : timequery db sid sub t = r :: rest)
    (hv : validVersion r.version = true)
    (hc : ((DatapointArray.TStart r.data t).length : Int) ≤ r.endIndex) :
    GetByTime s db sid sub t =
      .ok (.sql rest (DatapointArray.TStart r.data t),
        r.endIndex - ((DatapointArray.TStart r.data t).length : Int)) ∧
    (∀ p ∈ DatapointArray.TStart r.data t, t ≤ p.Timestamp) ∧
    r ∈ keyRows db sid sub ∧ t < r.endTime ∧
    (∀ q ∈ keyRows db sid sub, t < q.endTime → r.endTime ≤ q.endTime) := by
  obtain ⟨hm, hgt, hmin⟩ := timequery_head h
  refine ⟨?_, ?_, hm, hgt, hmin⟩
  · simp only [GetByTime, h, DecodeDatapointArray, hv, if_true]
    rw [if_neg (by omega)]
  · intro p hp
    have := (List.mem_filter.mp hp).2
    simpa using this

/-- Witness for C4 (the spec's scenario): with batches [1,5,10] ending at
index 3 and [12,15] ending at index 5, a read from time 11 returns the
datapoints timestamped 12 and 15 with absolute start index 3. -/
theorem GetByTime_witness :
    GetByTime fullStore
        [⟨1, "", 10, 3, 2, [⟨1, 0⟩, ⟨5, 0⟩, ⟨10, 0⟩]⟩,
         ⟨1, "", 15, 5, 2, [⟨12, 0⟩, ⟨15, 0⟩]⟩] 1 "" 11 =
      .ok (.sql []
        (DatapointArray.TStart [⟨12, 0⟩, ⟨15, 0⟩] 11),
        5 - ((DatapointArray.TStart [⟨12, 0⟩, ⟨15, 0⟩] 11).length : Int)) ∧
    ∀ p ∈ DatapointArray.TStart ([⟨12, 0⟩, ⟨15, 0⟩] : DatapointArray) 11,
      (11 : Int) ≤ p.Timestamp :=
  ⟨(GetByTime_spec fullStore
      [⟨1, "", 10, 3, 2, [⟨1, 0⟩, ⟨5, 0⟩, ⟨10, 0⟩]⟩, ⟨1, "", 15, 5, 2, [⟨12, 0⟩, ⟨15, 0⟩]⟩]
      1 "" 11 ⟨1, "", 15, 5, 2, [⟨12, 0⟩, ⟨15, 0⟩]⟩ []
      (by decide) (by decide) (by decide)).1,
   (GetByTime_spec fullStore
      [⟨1, "", 10, 3, 2, [⟨1, 0⟩, ⟨5, 0⟩, ⟨10, 0⟩]⟩, ⟨1, "", 15, 5, 2, [⟨12, 0⟩, ⟨15, 0⟩]⟩]
      1 "" 11 ⟨1, "", 15, 5, 2, [⟨12, 0⟩, ⟨15, 0⟩]⟩ []
      (by decide) (by decide) (by decide)).2.1⟩

lemma appendAll_ok (s : SqlStore) (sid : Int) (sub : String)
    (hs : s.insertversion = 2) :
    ∀ (as : List DatapointArray), (∀ a ∈ as, a ≠ []) → ∀ db : DB,
      ∃ db' : DB, appendAll s db sid sub as = .ok db' ∧
        maxEndIndex db' sid sub =
          maxEndIndex db sid sub + ((as.map List.length).sum : Int) := by
  intro as
  induction as with
  | nil => exact fun _ db => ⟨db, rfl, by simp⟩
  | cons a rest ih =>
    intro hne db
    have ha : a ≠ [] := hne a (List.mem_cons_self a rest)
    obtain ⟨p, hp, hIns, hMax⟩ :=
      insert_ok s db sid sub (maxEndIndex db sid sub) a hs ha le_rfl
    have hApp : Append s db sid sub a =
        Insert s db sid sub (maxEndIndex db sid sub) a := rfl
    obtain ⟨db', h1, h2⟩ := ih (fun x hx => hne x (List.mem_cons_of_mem a hx))
      (db ++ [⟨sid, sub, p.Timestamp, maxEndIndex db sid sub + (a.length : Int), 2, a⟩])
    refine ⟨db', ?_, ?_⟩
    · simp only [appendAll, hApp, hIns]
      exact h1
    · rw [h2, hMax]
      simp only [List.map_cons, List.sum_cons]
      push_cast
      ring


/-- C7: sequential `Append` calls to one key with non-empty arrays never
fail; each `Append` is exactly `GetEndIndex` followed by `Insert` at the
index it returned, and the key's end index after the calls exceeds the end
index before them by the total number of appended datapoints, strictly
increasing at every call. -/
theorem Append_seq_spec (s : SqlStore) (sid : Int) (sub : String)
    (as : List DatapointArray) (hs : s.insertversion = 2)
    (hne : ∀ a ∈ as, a ≠ []) :
    (∀ (db : DB) (a : DatapointArray),
      Append s db sid sub a =
        (GetEndIndex db sid sub).bind (fun j => Insert s db sid sub j a)) ∧
    ∀ db : DB, ∃ db' : DB, appendAll s db sid sub as = .ok db' ∧
      maxEndIndex db' sid sub =
        maxEndIndex db sid sub + ((as.map List.length).sum : Int) ∧
      (as ≠ [] → maxEndIndex db sid sub < maxEndIndex db' sid sub) := by
  refine ⟨fun db a => rfl, fun db => ?_⟩
  obtain ⟨db', h1, h2⟩ := appendAll_ok s sid sub hs as hne db
  refine ⟨db', h1, h2, fun hnil => ?_⟩
  rcases as with _ | ⟨a, rest⟩
  · exact absurd rfl hnil
  · have ha : a ≠ [] := hne a (List.mem_cons_self a rest)
    have hlen : 0 < a.length := List.length_pos.mpr ha
    rw [h2]
    have hsum : 0 < (List.map List.length (a :: rest)).sum := by
      simp only [List.map_cons, List.sum_cons]
      omega
    omega

/-- Witness for C7: two sequential appends to an initially empty key
succeed and take its end index from 0 to 3. -/
theorem Append_seq_witness :
    ∃ db' : DB, appendAll fullStore [] 1 "" [[⟨1, 0⟩], [⟨2, 0⟩, ⟨3, 0⟩]] = .ok db' ∧
      maxEndIndex db' 1 "" =
        maxEndIndex ([] : DB) 1 "" +
          ((([[⟨1, 0⟩], [⟨2, 0⟩, ⟨3, 0⟩]] : List DatapointArray).map List.length).sum : Int) ∧
      (([[⟨1, 0⟩], [⟨2, 0⟩, ⟨3, 0⟩]] : List DatapointArray) ≠ [] →
        maxEndIndex ([] : DB) 1 "" < maxEndIndex db' 1 "") :=
  (Append_seq_spec fullStore 1 "" [[⟨1, 0⟩], [⟨2, 0⟩, ⟨3, 0⟩]] rfl (by decide)).2 []

/-- C3: on a key whose stored data validly covers positions
[0, EndIndex), `GetByIndex` at any start index `i` in that range reads
the earliest batch whose `EndIndex` strictly exceeds `i`; with
`tail = EndIndex − i`, the decoded array is sliced to its last `tail`
elements when `tail` is shorter than the array and kept whole otherwise;
the returned absolute start index is the batch's `EndIndex` minus the
returned array's length, and it equals `i` — the range's first element has
absolute index `i`, boundary cases included. -/
theorem GetByIndex_spec (s : SqlStore) (db : DB) (sid : Int) (sub : String)
    (i : Int) (hv : ValidKey db sid sub) (h0 : 0 ≤ i)
    (hE : i < maxEndIndex db sid sub) :
    ∃ r rest, indexquery db sid sub i = r :: rest ∧
      r ∈ keyRows db sid sub ∧ i < r.endIndex ∧
      (∀ q ∈ keyRows db sid sub, i < q.endIndex → r.endIndex ≤ q.endIndex) ∧
      DecodeDatapointArray r.data r.version = .ok r.data ∧
      ∃ da', da' = (if r.endIndex - i < (r.data.length : Int) then
            DatapointArray.IRange r.data
              (r.data.length - (r.endIndex - i).toNat) r.data.length
          else r.data) ∧
        GetByIndex s db sid sub i = .ok (.sql rest da', r.endIndex - (da'.length : Int)) ∧
        r.endIndex - (da'.length : Int) = i := by
  have hkne : keyRows db sid sub ≠ [] := by
    intro h
    rw [maxEndIndex_of_nil h] at hE
    omega
  obtain ⟨qm, hqm, hqmE⟩ := maxEndIndex_attained hkne
  rcases hq : indexquery db sid sub i with _ | ⟨r, rest⟩
  · exfalso
    have hm : qm ∈ indexquery db sid sub i := mem_indexquery.mpr ⟨hqm, by omega⟩
    rw [hq] at hm
    cases hm
  obtain ⟨hm, hgt, hmin⟩ := indexquery_head hq
  obtain ⟨hdne, hver, hlen, hcont⟩ := hv r hm
  have hdec : DecodeDatapointArray r.data r.version = .ok r.data := by
    simp [DecodeDatapointArray, hver]
  have hlenpos : 0 < r.data.length := List.length_pos.mpr hdne
  have hstart : r.endIndex - (r.data.length : Int) ≤ i := by
    by_contra hlt
    push_neg at hlt
    obtain ⟨q, hqmem, hqE⟩ := hcont (by omega)
    have := hmin q hqmem (by omega)
    omega
  refine ⟨r, rest, rfl, hm, hgt, hmin, hdec, ?_⟩
  by_cases hcase : r.endIndex - i < (r.data.length : Int)
  · have htl : (((r.endIndex - i).toNat : Int)) = r.endIndex - i :=
      Int.toNat_of_nonneg (by omega)
    have htn_le : (r.endIndex - i).toNat ≤ r.data.length := by omega
    have hlength :
        (DatapointArray.IRange r.data
          (r.data.length - (r.endIndex - i).toNat) r.data.length).length =
          (r.endIndex - i).toNat := by
      simp only [DatapointArray.IRange, List.take_length, List.length_drop]
      omega
    refine ⟨_, (if_pos hcase).symm, ?_, ?_⟩
    · simp only [GetByIndex, hq, hdec]
      rw [if_neg (by omega)]
      have hX : (if r.endIndex - i < (r.data.length : Int) then
          DatapointArray.IRange r.data
            (r.data.length - (r.endIndex - i).toNat) r.data.length
        else r.data) = DatapointArray.IRange r.data
            (r.data.length - (r.endIndex - i).toNat) r.data.length := if_pos hcase
      rw [hX]
    · rw [hlength]
      omega
  · refine ⟨_, (if_neg hcase).symm, ?_, by omega⟩
    simp only [GetByIndex, hq, hdec]
    rw [if_neg (by omega)]
    have hX : (if r.endIndex - i < (r.data.length : Int) then
        DatapointArray.IRange r.data
          (r.data.length - (r.endIndex - i).toNat) r.data.length
      else r.data) = r.data := if_neg hcase
    rw [hX]

/-- Witness for C3 (the spec's scenario): on batches [1,5,10] ending at
index 3 and [12,15] ending at index 5, a read from start index 4 returns a
range whose first element has absolute index 4. -/
theorem GetByIndex_spec_witness :
    (0 : Int) ≤ 4 ∧
    (4 : Int) < maxEndIndex
      [⟨1, "", 10, 3, 2, [⟨1, 0⟩, ⟨5, 0⟩, ⟨10, 0⟩]⟩,
       ⟨1, "", 15, 5, 2, [⟨12, 0⟩, ⟨15, 0⟩]⟩] 1 "" ∧
    ∃ r rest, indexquery
        [⟨1, "", 10, 3, 2, [⟨1, 0⟩, ⟨5, 0⟩, ⟨10, 0⟩]⟩,
         ⟨1, "", 15, 5, 2, [⟨12, 0⟩, ⟨15, 0⟩]⟩] 1 "" 4 = r :: rest ∧
      r ∈ keyRows
        [⟨1, "", 10, 3, 2, [⟨1, 0⟩, ⟨5, 0⟩, ⟨10, 0⟩]⟩,
         ⟨1, "", 15, 5, 2, [⟨12, 0⟩, ⟨15, 0⟩]⟩] 1 "" ∧
      (4 : Int) < r.endIndex ∧
      (∀ q ∈ keyRows
        [⟨1, "", 10, 3, 2, [⟨1, 0⟩, ⟨5, 0⟩, ⟨10, 0⟩]⟩,
         ⟨1, "", 15, 5, 2, [⟨12, 0⟩, ⟨15, 0⟩]⟩] 1 "",
        (4 : Int) < q.endIndex → r.endIndex ≤ q.endIndex) ∧
      DecodeDatapointArray r.data r.version = .ok r.data ∧
      ∃ da', da' = (if r.endIndex - 4 < (r.data.length : Int) then
            DatapointArray.IRange r.data
              (r.data.length - (r.endIndex - 4).toNat) r.data.length
          else r.data) ∧
        GetByIndex fullStore
          [⟨1, "", 10, 3, 2, [⟨1, 0⟩, ⟨5, 0⟩, ⟨10, 0⟩]⟩,
           ⟨1, "", 15, 5, 2, [⟨12, 0⟩, ⟨15, 0⟩]⟩] 1 "" 4 =
          .ok (.sql rest da', r.endIndex - (da'.length : Int)) ∧
        r.endIndex - (da'.length : Int) = 4 :=
  ⟨by decide, by decide,
   GetByIndex_spec fullStore
     [⟨1, "", 10, 3, 2, [⟨1, 0⟩, ⟨5, 0⟩, ⟨10, 0⟩]⟩,
      ⟨1, "", 15, 5, 2, [⟨12, 0⟩, ⟨15, 0⟩]⟩] 1 "" 4
     (by decide) (by decide) (by decide)⟩

end Datastream
